import Mathlib

/-!
Verification development for the GitHub Copilot adapter of this repository:
the credential lifecycle manager (`litellm/llms/github_copilot/authenticator.py`)
and the streaming tool-call normalizer / request shaper
(`litellm/llms/github_copilot/chat/transformation.py`).

Python dictionaries are modelled as insertion-ordered association lists,
Python `json.loads` validity as an executable recursive-descent checker over
the grammar of Python's `json` module (JSON whitespace is only space, tab,
newline, carriage return; `NaN`/`Infinity`/`-Infinity` are accepted, as by
the default `json.loads`), and Python `str.strip()` by `pythonStrip` using
Python's notion of whitespace (which is strictly larger than JSON's).
-/

namespace LitellmGithubCopilot

/-! ## Association lists with Python dict semantics (insertion order, in-place update) -/

def alookup {α : Type} : List (Nat × α) → Nat → Option α
  | [], _ => none
  | (k, v) :: t, i => if k = i then some v else alookup t i

def amem {α : Type} (l : List (Nat × α)) (k : Nat) : Bool :=
  l.any (fun p => decide (p.1 = k))

/-- Python `d[k] = v`: overwrite in place if the key is present (keys are
unique in every dict this development builds), else append. -/
def aset {α : Type} : List (Nat × α) → Nat → α → List (Nat × α)
  | [], k, v => [(k, v)]
  | (k0, v0) :: t, k, v => if k0 = k then (k, v) :: t else (k0, v0) :: aset t k v

def dlookup {α : Type} : List (String × α) → String → Option α
  | [], _ => none
  | (k, v) :: t, i => if k = i then some v else dlookup t i

def dmem {α : Type} (l : List (String × α)) (k : String) : Bool :=
  l.any (fun p => decide (p.1 = k))

/-- Python `d[k] = v` for string keys: overwrite in place if the key is
present, else append. -/
def dset {α : Type} : List (String × α) → String → α → List (String × α)
  | [], k, v => [(k, v)]
  | (k0, v0) :: t, k, v => if k0 = k then (k, v) :: t else (k0, v0) :: dset t k v

/-- Model of the Python double-splat merge `\x7b**a, **b\x7d`: start from `a` and
write each entry of `b` in order (overwriting in place, appending if new). -/
def dmerge {α : Type} (a b : List (String × α)) : List (String × α) :=
  b.foldl (fun acc p => dset acc p.1 p.2) a

/-! ## Python `str.strip()` -/

/-- The characters Python's `str.isspace` (and hence no-argument `str.strip`)
treats as whitespace.  This is strictly larger than JSON's whitespace set. -/
def pythonIsSpace (c : Char) : Bool :=
  c = ' ' || c = '\t' || c = '\n' || c = '\r' || c = '\u000b' || c = '\u000c' ||
  c = '\u001c' || c = '\u001d' || c = '\u001e' || c = '\u001f' || c = '\u0085' ||
  c = '\u00a0' || c = '\u1680' || c = '\u2000' || c = '\u2001' || c = '\u2002' ||
  c = '\u2003' || c = '\u2004' || c = '\u2005' || c = '\u2006' || c = '\u2007' ||
  c = '\u2008' || c = '\u2009' || c = '\u200a' || c = '\u2028' || c = '\u2029' ||
  c = '\u202f' || c = '\u205f' || c = '\u3000'

def stripList (l : List Char) : List Char :=
  ((l.dropWhile pythonIsSpace).reverse.dropWhile pythonIsSpace).reverse

/-- Model of Python `s.strip()` with no arguments. -/
def pythonStrip (s : String) : String :=
  String.mk (stripList s.data)

/-! ## Validity checker for Python `json.loads`

`jsonOk s = true` iff `json.loads(s)` succeeds.  The checker follows the
grammar implemented by Python's `json.decoder`/`json.scanner`: leading and
trailing JSON whitespace (space, tab, newline, carriage return) is skipped,
one value is parsed, and the input must then be exhausted. -/

def isJsonWs (c : Char) : Bool :=
  c = ' ' || c = '\t' || c = '\n' || c = '\r'

def skipWs (l : List Char) : List Char :=
  l.dropWhile isJsonWs

def isHexDigitC (c : Char) : Bool :=
  c.isDigit || ('a' ≤ c && c ≤ 'f') || ('A' ≤ c && c ≤ 'F')

/-- Consume the body of a JSON string after the opening quote, returning the
remaining input after the closing quote.  Mirrors Python's strict string
scanner: `\\uXXXX` escapes, the named escapes, and no raw control characters. -/
def parseStringBody : Nat → List Char → Option (List Char)
  | 0, _ => none
  | _ + 1, [] => none
  | fuel + 1, c :: cs =>
    if c = '"' then some cs
    else if c = '\\' then
      match cs with
      | [] => none
      | e :: cs2 =>
        if e = 'u' then
          match cs2 with
          | h1 :: h2 :: h3 :: h4 :: cs3 =>
            if isHexDigitC h1 && isHexDigitC h2 && isHexDigitC h3 && isHexDigitC h4 then
              parseStringBody fuel cs3
            else none
          | _ => none
        else if e = '"' || e = '\\' || e = '/' || e = 'b' || e = 'f' || e = 'n' ||
                e = 'r' || e = 't' then
          parseStringBody fuel cs2
        else none
    else if c.val < 32 then none
    else parseStringBody fuel cs

/-- Consume an exact literal (used for true/false/null/NaN/Infinity). -/
def expectLit : List Char → List Char → Option (List Char)
  | [], rest => some rest
  | _ :: _, [] => none
  | c :: cs, x :: xs => if x = c then expectLit cs xs else none

/-- Consume the optional fraction part `(\.\d+)?` of the number regex;
if it does not match, consume nothing (maximal-munch regex semantics). -/
def numFrac (l : List Char) : List Char :=
  match l with
  | '.' :: rest =>
    match rest with
    | c :: _ => if c.isDigit then rest.dropWhile Char.isDigit else l
    | [] => l
  | _ => l

/-- Consume the optional exponent part `([eE][-+]?\d+)?` of the number regex;
if it does not match, consume nothing. -/
def numExp (l : List Char) : List Char :=
  match l with
  | e :: rest =>
    if e = 'e' ∨ e = 'E' then
      let rest2 := match rest with
        | s :: t => if s = '+' ∨ s = '-' then t else s :: t
        | [] => rest
      match rest2 with
      | c :: _ => if c.isDigit then rest2.dropWhile Char.isDigit else l
      | [] => l
    else l
  | [] => l

/-- Consume a number per Python json's regex
`(-?(0|[1-9]\d*))(\.\d+)?([eE][-+]?\d+)?` (no leading zeros, sign only minus). -/
def parseNumber (l : List Char) : Option (List Char) :=
  let l1 := match l with
    | '-' :: r => r
    | _ => l
  match l1 with
  | '0' :: r => some (numExp (numFrac r))
  | c :: r => if c.isDigit then some (numExp (numFrac (r.dropWhile Char.isDigit))) else none
  | [] => none

inductive PMode where
  | value
  | members
  | elements
deriving Repr, DecidableEq

/-- Recursive-descent consumer for one JSON value (`PMode.value`), the members
of an object after its first key is expected (`PMode.members`), or the
elements of an array (`PMode.elements`).  Returns the remaining input. -/
def parseJ : Nat → PMode → List Char → Option (List Char)
  | 0, _, _ => none
  | fuel + 1, PMode.value, l =>
    match l with
    | [] => none
    | c :: cs =>
      if c = '"' then parseStringBody (fuel + 1) cs
      else if c = '{' then
        match skipWs cs with
        | '}' :: r => some r
        | l2 => parseJ fuel PMode.members l2
      else if c = '[' then
        match skipWs cs with
        | ']' :: r => some r
        | l2 => parseJ fuel PMode.elements l2
      else if c = 'n' then expectLit ['u', 'l', 'l'] cs
      else if c = 't' then expectLit ['r', 'u', 'e'] cs
      else if c = 'f' then expectLit ['a', 'l', 's', 'e'] cs
      else if c = 'N' then expectLit ['a', 'N'] cs
      else if c = 'I' then expectLit ['n', 'f', 'i', 'n', 'i', 't', 'y'] cs
      else if c = '-' then
        match parseNumber (c :: cs) with
        | some r => some r
        | none => expectLit ['I', 'n', 'f', 'i', 'n', 'i', 't', 'y'] cs
      else if c.isDigit then parseNumber (c :: cs)
      else none
  | fuel + 1, PMode.members, l =>
    match l with
    | '"' :: cs =>
      match parseStringBody fuel cs with
      | none => none
      | some r1 =>
        match skipWs r1 with
        | ':' :: r2 =>
          match parseJ fuel PMode.value (skipWs r2) with
          | none => none
          | some r3 =>
            match skipWs r3 with
            | '}' :: r4 => some r4
            | ',' :: r4 => parseJ fuel PMode.members (skipWs r4)
            | _ => none
        | _ => none
    | _ => none
  | fuel + 1, PMode.elements, l =>
    match parseJ fuel PMode.value l with
    | none => none
    | some r1 =>
      match skipWs r1 with
      | ']' :: r2 => some r2
      | ',' :: r2 => parseJ fuel PMode.elements (skipWs r2)
      | _ => none

def jsonOkL (l : List Char) : Bool :=
  match parseJ (2 * l.length + 2) PMode.value (skipWs l) with
  | some rest => (skipWs rest).isEmpty
  | none => false

/-- `jsonOk s = true` models `json.loads(s)` succeeding. -/
def jsonOk (s : String) : Bool :=
  jsonOkL s.data

/-! ## Python values

A small model of the Python values flowing through the request shaper:
`None`, booleans, integers, strings, lists and (string-keyed) dicts. -/

inductive PyVal where
  | none : PyVal
  | bool : Bool → PyVal
  | int : Int → PyVal
  | str : String → PyVal
  | list : List PyVal → PyVal
  | dict : List (String × PyVal) → PyVal
deriving Repr, BEq

abbrev Dict := List (String × PyVal)

/-- Python truthiness (`bool(v)`) for the modelled values. -/
def pyTruthy : PyVal → Bool
  | PyVal.none => false
  | PyVal.bool b => b
  | PyVal.int n => decide (n ≠ 0)
  | PyVal.str s => decide (s ≠ "")
  | PyVal.list l => !l.isEmpty
  | PyVal.dict d => !d.isEmpty

/-- `d.get(k)` (`None` if absent). -/
def dgetD (d : Dict) (k : String) : PyVal :=
  (dlookup d k).getD PyVal.none

/-- Python `a or b`: the first operand if truthy, else the second. -/
def pyOr (a b : PyVal) : PyVal :=
  if pyTruthy a then a else b

/-! ## `json.dumps` (default options: `ensure_ascii=True`,
separators `", "` and `": "`) for the modelled values -/

def hexDigitOf (n : Nat) : Char :=
  if n < 10 then Char.ofNat (48 + n) else Char.ofNat (87 + n)

def toHex4 (n : Nat) : String :=
  String.mk [hexDigitOf ((n / 4096) % 16), hexDigitOf ((n / 256) % 16),
             hexDigitOf ((n / 16) % 16), hexDigitOf (n % 16)]

def uEscape (c : Char) : String :=
  let v := c.toNat
  if v < 65536 then "\\u" ++ toHex4 v
  else
    "\\u" ++ toHex4 (55296 + (v - 65536) / 1024) ++ "\\u" ++ toHex4 (56320 + (v - 65536) % 1024)

def escChar (c : Char) : String :=
  if c = '"' then "\\\""
  else if c = '\\' then "\\\\"
  else if c = '\n' then "\\n"
  else if c = '\t' then "\\t"
  else if c = '\r' then "\\r"
  else if c = '\u0008' then "\\b"
  else if c = '\u000c' then "\\f"
  else if c.toNat < 32 || c.toNat > 126 then uEscape c
  else String.singleton c

def dumpString (s : String) : String :=
  "\"" ++ String.join (s.data.map escChar) ++ "\""

mutual

def pyDumps : PyVal → String
  | PyVal.none => "null"
  | PyVal.bool true => "true"
  | PyVal.bool false => "false"
  | PyVal.int n => toString n
  | PyVal.str s => dumpString s
  | PyVal.list l => "[" ++ pyDumpsList l ++ "]"
  | PyVal.dict d => "\x7b" ++ pyDumpsDict d ++ "\x7d"

def pyDumpsList : List PyVal → String
  | [] => ""
  | [v] => pyDumps v
  | v :: rest => pyDumps v ++ ", " ++ pyDumpsList rest

def pyDumpsDict : List (String × PyVal) → String
  | [] => ""
  | [(k, v)] => dumpString k ++ ": " ++ pyDumps v
  | (k, v) :: rest => dumpString k ++ ": " ++ pyDumps v ++ ", " ++ pyDumpsDict rest

end

/-! ## Credential lifecycle manager (`authenticator.py`)

`Authenticator.get_api_key` reads the persisted API-key file, returns the
stored token when `expires_at` is still in the future, and otherwise calls
`_refresh_api_key` over the network and persists the result.  File and
network effects are modelled by explicit oracle parameters; timestamps are
modelled as integers (only their ordering matters here). -/

/-- The parsed content of the persisted `api-key.json` file.  Only the two
fields `get_api_key` reads are modelled; `expires_at = Option.none` models an
absent key (Python `.get("expires_at", 0)` then yields the default `0`), and
`token = Option.none` models an absent `token` field (Python `.get("token")`
then yields `None`). -/
structure ApiKeyInfo where
  expires_at : Option Int
  token : Option String
deriving Repr, DecidableEq

/-- Outcome of `open(self.api_key_file)` + `json.load`: an `IOError`
(missing or unreadable file), a `json.JSONDecodeError` (malformed JSON), or a
successfully parsed JSON object. -/
inductive ApiKeyFileRead where
  | ioError
  | malformed
  | parsed (info : ApiKeyInfo)
deriving Repr, DecidableEq

/-- Outcome of the network call `_refresh_api_key()`: either a response
object (guaranteed by `_refresh_api_key` to contain a `token` key, though its
value may be `null`, modelled by `Option.none`) or a `RefreshAPIKeyError`
after its retries are exhausted. -/
inductive RefreshOutcome where
  | success (info : ApiKeyInfo)
  | failure
deriving Repr, DecidableEq

/-- What `get_api_key()` does: return a value (line 95 can return `None` when
the stored object has no `token` field) or raise `GetAPIKeyError`. -/
inductive GetApiKeyResult where
  | returned (tok : Option String)
  | raisedGetAPIKeyError
deriving Repr, DecidableEq

structure GetApiKeyRun where
  result : GetApiKeyResult
  refreshCalled : Bool
deriving Repr, DecidableEq

/-- The refresh-and-persist path of `get_api_key` (lines 106-119):
call `_refresh_api_key`, write the file (`writeOk = false` models an
`IOError` while saving), then return the token if truthy else raise. -/
def get_api_key_refresh_path (refresh : RefreshOutcome) (writeOk : Bool) : GetApiKeyRun :=
  match refresh with
  | RefreshOutcome.failure => { result := GetApiKeyResult.raisedGetAPIKeyError, refreshCalled := true }
  | RefreshOutcome.success info =>
    if !writeOk then { result := GetApiKeyResult.raisedGetAPIKeyError, refreshCalled := true }
    else
      match info.token with
      | some t =>
        if t ≠ "" then { result := GetApiKeyResult.returned (some t), refreshCalled := true }
        else { result := GetApiKeyResult.raisedGetAPIKeyError, refreshCalled := true }
      | none => { result := GetApiKeyResult.raisedGetAPIKeyError, refreshCalled := true }

/-- Model of `Authenticator.get_api_key` (lines 81-119).  `now` models
`datetime.now().timestamp()`.  A parsed file whose `expires_at` is strictly
greater than `now` is a cache hit returning `api_key_info.get("token")`
without any network call; an `IOError`, decode error, or non-future
`expires_at` (via `APIKeyExpiredError`) falls through to the refresh path. -/
def get_api_key (file : ApiKeyFileRead) (now : Int) (refresh : RefreshOutcome)
    (writeOk : Bool) : GetApiKeyRun :=
  match file with
  | ApiKeyFileRead.parsed info =>
    if info.expires_at.getD 0 > now then
      { result := GetApiKeyResult.returned info.token, refreshCalled := false }
    else get_api_key_refresh_path refresh writeOk
  | ApiKeyFileRead.ioError => get_api_key_refresh_path refresh writeOk
  | ApiKeyFileRead.malformed => get_api_key_refresh_path refresh writeOk

/-! ## Device-code polling (`Authenticator._poll_for_access_token`, lines 225-291) -/

/-- The JSON body of a successful-status polling response.
`access_token = some t` models `"access_token" in resp_json` (with value `t`);
`error` models `resp_json.get("error")`. -/
structure PollBody where
  access_token : Option String
  error : Option String
deriving Repr, DecidableEq

/-- One polling attempt's outcome at the transport level: an HTTP error
status (`raise_for_status` throws `HTTPStatusError`), an undecodable body
(`json.JSONDecodeError`), any other exception, or a decoded body. -/
inductive PollResponse where
  | httpError
  | badJson
  | otherException
  | ok (body : PollBody)
deriving Repr, DecidableEq

inductive PollResult where
  | success (tok : String)
  | abortHttp
  | abortJson
  | abortOther
  | timedOut
deriving Repr, DecidableEq

structure PollRun where
  result : PollResult
  attemptsMade : Nat
  sleeps : List Nat
deriving Repr, DecidableEq

/-- The polling loop body.  `responses` is the transport oracle giving the
outcome of the POST on each (0-based) attempt; `att` counts attempts made so
far and `sl` accumulates the durations passed to `time.sleep`.  Mirrors the
`for attempt in range(max_attempts)` loop: an HTTP/JSON/other exception
aborts by raising; a body with an `access_token` returns it; an
`authorization_pending` body only logs; any other body only logs a warning;
in both of the last two cases the loop sleeps 5 seconds and polls again. -/
def pollGo (responses : Nat → PollResponse) : Nat → Nat → List Nat → PollRun
  | 0, att, sl => { result := PollResult.timedOut, attemptsMade := att, sleeps := sl }
  | n + 1, att, sl =>
    match responses att with
    | PollResponse.httpError => { result := PollResult.abortHttp, attemptsMade := att + 1, sleeps := sl }
    | PollResponse.badJson => { result := PollResult.abortJson, attemptsMade := att + 1, sleeps := sl }
    | PollResponse.otherException => { result := PollResult.abortOther, attemptsMade := att + 1, sleeps := sl }
    | PollResponse.ok body =>
      match body.access_token with
      | some tok => { result := PollResult.success tok, attemptsMade := att + 1, sleeps := sl }
      | none =>
        if body.error = some "authorization_pending" then pollGo responses n (att + 1) (sl ++ [5])
        else pollGo responses n (att + 1) (sl ++ [5])

/-- Model of `_poll_for_access_token`: `max_attempts = 12`, and after the
loop exhausts its attempts a timeout error is raised. -/
def poll_for_access_token (responses : Nat → PollResponse) : PollRun :=
  pollGo responses 12 0 []

/-! ## Request shaper (`GithubCopilotConfig`, `transformation.py`)

Messages and parameter dictionaries are modelled as `Dict` association
lists.  Raising (`ValueError`, `AttributeError`) is modelled with `Except`. -/

/-- Model of `_validate_tool_arguments` (lines 182-206): coerce missing/empty
arguments to the string `"\x7b\x7d"`, serialize dict arguments with `json.dumps`,
reject string arguments that are not valid JSON, and pass any other type
through unvalidated.  A non-dict `tool_call`, or a truthy non-dict value
under its `function` key, makes the Python raise (`AttributeError`/
`TypeError`), modelled by `Except.error`. -/
def validate_tool_arguments (tool_call : PyVal) : Except String PyVal :=
  match tool_call with
  | PyVal.dict tc =>
    match (dlookup tc "function").getD (PyVal.dict []) with
    | PyVal.dict f =>
      let arguments := dgetD f "arguments"
      if !pyTruthy arguments ||
          (match arguments with
           | PyVal.str s => decide (pythonStrip s = "")
           | _ => false) then
        Except.ok (PyVal.dict (dset tc "function" (PyVal.dict (dset f "arguments" (PyVal.str "\x7b\x7d")))))
      else
        match arguments with
        | PyVal.dict _ =>
          Except.ok (PyVal.dict (dset tc "function" (PyVal.dict (dset f "arguments" (PyVal.str (pyDumps arguments))))))
        | PyVal.str s =>
          if jsonOk s then Except.ok (PyVal.dict (dset tc "function" (PyVal.dict f)))
          else Except.error "Tool call arguments must be valid JSON"
        | _ => Except.ok (PyVal.dict (dset tc "function" (PyVal.dict f)))
    | _ => Except.error "AttributeError: no attribute get"
  | _ => Except.error "AttributeError: no attribute get"

/-- Model of one iteration of `_transform_messages_with_tool_results`
(lines 208-233). -/
def transform_one_message (m : Dict) : Except String Dict :=
  if (match dgetD m "role" with
      | PyVal.str r => decide (r = "tool")
      | _ => false) || pyTruthy (dgetD m "tool_call_id") then
    Except.ok [("role", PyVal.str "tool"),
               ("tool_call_id", pyOr (dgetD m "tool_call_id") (dgetD m "id")),
               ("content", dgetD m "content")]
  else if (match dgetD m "role" with
           | PyVal.str r => decide (r = "assistant")
           | _ => false) && pyTruthy (dgetD m "tool_calls") then
    match (dlookup m "tool_calls").getD (PyVal.list []) with
    | PyVal.list tcs => do
      let tcs' ← tcs.mapM validate_tool_arguments
      Except.ok (dset m "tool_calls" (PyVal.list tcs'))
    | _ => Except.error "TypeError: tool_calls is not iterable"
  else Except.ok m

/-- Model of `_transform_messages_with_tool_results` (lines 208-233). -/
def transform_messages (messages : List Dict) : Except String (List Dict) :=
  messages.mapM transform_one_message

/-- The inert placeholder tool synthesized by `_ensure_tools`. -/
def noop_tool : PyVal :=
  PyVal.dict [("type", PyVal.str "function"),
              ("function", PyVal.dict
                [("name", PyVal.str "noop"),
                 ("description", PyVal.str "No operation"),
                 ("parameters", PyVal.dict [("type", PyVal.str "object")])])]

/-- Whether a message marks earlier tool usage, per `_ensure_tools` line 164:
`m.get("tool_calls") or m.get("tool_call_id")` is truthy. -/
def message_marks_tool_use (m : Dict) : Bool :=
  pyTruthy (dgetD m "tool_calls") || pyTruthy (dgetD m "tool_call_id")

/-- Model of `_ensure_tools` (lines 161-180). -/
def ensure_tools (optional_params : Dict) (messages : List Dict) : Dict :=
  let tools := (dlookup optional_params "tools").getD (PyVal.list [])
  let tool_called := messages.any message_marks_tool_use
  let tools :=
    if (tool_called && !pyTruthy tools) || (dmem optional_params "tools" && !pyTruthy tools) then
      PyVal.list [noop_tool]
    else tools
  dset optional_params "tools" tools

/-- Python `s.startswith(pre)`. -/
def pyStartsWith (s pre : String) : Bool :=
  pre.data.isPrefixOf s.data

/-- Replace the non-overlapping occurrences of `pat` in the input, left to
right (Python `s.replace(pat, rep)` for a non-empty `pat`; the only call
site passes the fixed pattern `"github_copilot/"`).  The fuel argument is
initialized to more than the input length, which the recursion never
exhausts. -/
def replaceFuel : Nat → List Char → List Char → List Char → List Char
  | 0, _, _, l => l
  | _ + 1, _, _, [] => []
  | fuel + 1, pat, rp, c :: cs =>
    if pat.isPrefixOf (c :: cs) then rp ++ replaceFuel fuel pat rp ((c :: cs).drop pat.length)
    else c :: replaceFuel fuel pat rp cs

/-- Python `s.replace(pat, rep)` for non-empty `pat`. -/
def pyReplace (s pat rp : String) : String :=
  String.mk (replaceFuel (s.data.length + 1) pat.data rp.data s.data)

/-- Model of `transform_request` (lines 235-272): transform the messages,
build `copilot_required_params` with `intent`, `n` and the stream flag,
inject the placeholder tool, merge with `optional_params` (the Python merge
`\x7b**copilot_required_params, **optional_params\x7d` gives `optional_params`
priority), strip the provider prefix from the model name, and assemble the
payload `\x7b"model": ..., "messages": ..., **final_params\x7d`. -/
def transform_request (model : String) (messages : List Dict) (optional_params : Dict) :
    Except String Dict := do
  let messages ← transform_messages messages
  let copilot_required_params : Dict := [("intent", PyVal.bool true), ("n", PyVal.int 1)]
  let stream_requested := (dlookup optional_params "stream").getD (PyVal.bool false)
  let copilot_required_params :=
    if !pyTruthy stream_requested then dset copilot_required_params "stream" (PyVal.bool true)
    else dset copilot_required_params "stream" stream_requested
  let optional_params := ensure_tools optional_params messages
  let final_params := dmerge copilot_required_params optional_params
  let actual_model :=
    if pyStartsWith model "github_copilot/" then pyReplace model "github_copilot/" "" else model
  Except.ok (dmerge [("model", PyVal.str actual_model),
                     ("messages", PyVal.list (messages.map PyVal.dict))] final_params)

/-! ## Streaming tool-call normalizer (`GithubCopilotResponseIterator`) -/

/-- One accumulator entry, as initialized at line 760:
`\x7b'id': '', 'name': '', 'arguments': '', 'type': call_type\x7d`. -/
structure ToolCallEntry where
  id : String
  name : String
  arguments : String
  type : String
deriving Repr, DecidableEq

/-- The `function` sub-object of a streamed tool-call fragment;
`Option.none` fields model absent keys (`func_data.get(...)` gives `None`). -/
structure FunctionFragment where
  name : Option String
  arguments : Option String
deriving Repr, DecidableEq

/-- One element of a `delta.tool_calls` list.  `index` is
`tool_call.get("index", 0)` (absent key gives the default), `id` is
`tool_call.get("id")`, `type` is `tool_call.get("type", "function")`, and
`function = Option.none` models `"function" not in tool_call` or a falsy
value under that key (line 774 checks both). -/
structure ToolCallFragment where
  index : Nat
  id : Option String
  type : String
  function : Option FunctionFragment
deriving Repr, DecidableEq

/-- The `ChatCompletionToolCallChunk` built at lines 793-804. -/
structure ToolCallChunk where
  index : Nat
  id : String
  type : String
  name : Option String
  arguments : String
deriving Repr, DecidableEq

abbrev Accumulator := List (Nat × ToolCallEntry)

def freshEntry (call_type : String) : ToolCallEntry :=
  { id := "", name := "", arguments := "", type := call_type }

/-- Model of `_validate_tool_call_structure` (lines 836-870): an entry
without a name is rejected (returns `false`, line 848); every other issue
(missing id, unparseable arguments) only logs a warning and the entry is
accepted.  The `'arguments' not in entry` repair at line 853 cannot occur in
this model because the field is always present. -/
def validate_tool_call_structure (entry : ToolCallEntry) : Bool :=
  if entry.name = "" then false else true

/-- The entry initialization at lines 759-765: on first sight of an index,
store a fresh entry for it (Python dict insertion appends at the end). -/
def initAcc (acc : Accumulator) (tool_call : ToolCallFragment) : Accumulator :=
  if amem acc tool_call.index then acc
  else acc ++ [(tool_call.index, freshEntry tool_call.type)]

/-- The in-place entry updates at lines 769-783: overwrite `id` whenever the
fragment carries one (`is not None`), overwrite `name` when the fragment's
function carries a truthy name, and append to `arguments` when it carries
truthy argument text. -/
def updateEntry (entry : ToolCallEntry) (tool_call : ToolCallFragment) : ToolCallEntry :=
  let entry :=
    match tool_call.id with
    | some i => { entry with id := i }
    | none => entry
  match tool_call.function with
  | some f =>
    let entry :=
      match f.name with
      | some nm => if nm ≠ "" then { entry with name := nm } else entry
      | none => entry
    match f.arguments with
    | some ar => if ar ≠ "" then { entry with arguments := entry.arguments ++ ar } else entry
    | none => entry
  | none => entry

/-- Model of the per-fragment body of `_process_tool_calls_robust`
(lines 750-807): initialize the entry on first sight of its index, apply the
in-place updates, then build a chunk from the accumulated state unless
validation rejects the (still nameless) entry.  Because the Python mutates
the entry object stored in the dict, the accumulator keeps the updated entry
even when validation rejects it. -/
def processOneFragment (acc : Accumulator) (tool_call : ToolCallFragment) :
    Accumulator × Option ToolCallChunk :=
  let call_index := tool_call.index
  let acc := initAcc acc tool_call
  let entry := (alookup acc call_index).getD (freshEntry tool_call.type)
  let entry := updateEntry entry tool_call
  let acc := aset acc call_index entry
  let func_name := if entry.name ≠ "" then some entry.name else none
  (acc,
    if !validate_tool_call_structure entry then none
    else some { index := call_index, id := entry.id, type := "function",
                name := func_name, arguments := entry.arguments })

/-- Model of `_process_tool_calls_robust`'s loop over `delta_tool_calls`:
fold the fragments through the accumulator in order, collecting the chunks
of the fragments that pass validation.  (The per-fragment `try/except` that
skips a broken fragment has no failing cases in this model.) -/
def processToolCalls : Accumulator → List ToolCallFragment → Accumulator × List ToolCallChunk
  | acc, [] => (acc, [])
  | acc, f :: fs =>
    let r1 := processOneFragment acc f
    let r2 := processToolCalls r1.1 fs
    (r2.1, r1.2.toList ++ r2.2)

/-- Model of `_validate_arguments_json` (lines 911-923): empty or
whitespace-only arguments are valid; otherwise validity is `json.loads`
succeeding. -/
def validate_arguments_json (arguments : String) : Bool :=
  if arguments = "" ∨ pythonStrip arguments = "" then true
  else jsonOk arguments

def startsWithChar (s : String) (c : Char) : Bool :=
  match s.data with
  | [] => false
  | d :: _ => d = c

/-- Model of `_fix_json_arguments` (lines 925-957): empty/whitespace input
becomes `"\x7b\x7d"`; input that already parses is returned unchanged; otherwise
the input is stripped, wrapped in braces unless it already starts with a
brace or bracket, and the result is returned if it parses, else `"\x7b\x7d"`. -/
def fix_json_arguments (arguments : String) : String :=
  if arguments = "" ∨ pythonStrip arguments = "" then "\x7b\x7d"
  else if jsonOk arguments then arguments
  else
    let fixed := pythonStrip arguments
    let fixed :=
      if !startsWithChar fixed '{' && !startsWithChar fixed '[' then "\x7b" ++ fixed ++ "\x7d"
      else fixed
    if jsonOk fixed then fixed else "\x7b\x7d"

/-- The selection performed by `_flush_completed_tool_calls` on each
accumulator entry (lines 880-894): keep entries whose `name` is truthy
(`arguments` is never `None` in the accumulator), repairing arguments that
fail JSON validation.  The Python also records a wall-clock `flushed_at`
timestamp, which is not modelled. -/
def flushSelect (acc : Accumulator) : List (Nat × ToolCallEntry) :=
  acc.filterMap fun p =>
    if p.2.name ≠ "" then
      some (p.1,
        { p.2 with arguments :=
            if validate_arguments_json p.2.arguments then p.2.arguments
            else fix_json_arguments p.2.arguments })
    else none

/-- Mutable per-stream state of `GithubCopilotResponseIterator`. -/
structure IterState where
  tool_calls_by_index : Accumulator
  finished_tool_calls : List (Nat × ToolCallEntry)
  last_tool_call_finish_reason : Option String
deriving Repr, DecidableEq

/-- Model of `_flush_completed_tool_calls` (lines 872-909): when the
accumulator is non-empty, move the eligible entries to the finished list and
clear the accumulator. -/
def flush_completed_tool_calls (st : IterState) : IterState :=
  if st.tool_calls_by_index.isEmpty then st
  else { st with
         finished_tool_calls := st.finished_tool_calls ++ flushSelect st.tool_calls_by_index,
         tool_calls_by_index := [] }

/-- The `delta` object of a streamed choice.  `content` models
`delta.get("content", "")` defaulting when absent; `tool_calls` models
`delta.get("tool_calls")`. -/
structure Delta where
  content : Option String
  tool_calls : Option (List ToolCallFragment)
deriving Repr, DecidableEq

def emptyDelta : Delta := { content := none, tool_calls := none }

/-- One element of `chunk["choices"]`.  `delta = Option.none` models an
absent or `None` delta (the code's `choice.get("delta", \x7b\x7d) or \x7b\x7d`). -/
structure Choice where
  delta : Option Delta
  finish_reason : Option String
deriving Repr, DecidableEq

/-- A decoded upstream streaming event.  `choices = []` models an absent,
`None` or empty `choices` key (all falsy at line 657); `usage` models the
presence of a `usage` key; `index` models `int(chunk.get("index", 0))`. -/
structure Chunk where
  index : Nat
  choices : List Choice
  usage : Option PyVal
deriving Repr

/-- The `GenericStreamingChunk` produced per event.  The raw-chunk debug
copy stored in `provider_specific_fields` is modelled by `raw_chunk`. -/
structure GenericStreamingChunkM where
  text : String
  tool_use : Option ToolCallChunk
  is_finished : Bool
  finish_reason : String
  usage : Option PyVal
  index : Nat
  raw_chunk : Option Chunk
deriving Repr

/-- The tool-call fragment list the parser operates on (lines 662-668):
the primary choice's `delta.tool_calls`, or, when that is falsy and a second
choice exists, the second choice's `delta.tool_calls`. -/
def effective_tool_calls (chunk : Chunk) : List ToolCallFragment :=
  match chunk.choices with
  | [] => []
  | c0 :: rest =>
    let tc0 := ((c0.delta.getD emptyDelta).tool_calls).getD []
    if tc0.isEmpty && decide (chunk.choices.length ≥ 2) then
      match rest with
      | c1 :: _ => ((c1.delta.getD emptyDelta).tool_calls).getD []
      | [] => []
    else tc0

/-- The finish-reason scan (lines 677-689): the first choice, in order,
whose `finish_reason` is truthy (non-`None`, non-empty) — the loop `break`s
there. -/
def firstFinishReason (choices : List Choice) : Option String :=
  choices.findSome? fun c =>
    match c.finish_reason with
    | some s => if s ≠ "" then some s else none
    | none => none

/-- Model of `chunk_parser` (lines 639-706): extract the text delta, process
the effective tool-call fragments through the accumulator, surface the first
reconstructed chunk as `tool_use`, scan for a finish reason, and on the
`"tool_calls"` finish reason record it and flush the accumulator.  The
try/except wrappers only re-package exceptions, which no path of this model
raises. -/
def chunkParser (st : IterState) (chunk : Chunk) : IterState × GenericStreamingChunkM :=
  match chunk.choices with
  | [] =>
    (st, { text := "", tool_use := none, is_finished := false, finish_reason := "",
           usage := chunk.usage, index := chunk.index, raw_chunk := some chunk })
  | c0 :: _ =>
    let delta := c0.delta.getD emptyDelta
    let text := delta.content.getD ""
    let tcs := effective_tool_calls chunk
    let pr := if !tcs.isEmpty then processToolCalls st.tool_calls_by_index tcs
              else (st.tool_calls_by_index, [])
    let tool_use := pr.2.head?
    let st1 : IterState := { st with tool_calls_by_index := pr.1 }
    match firstFinishReason chunk.choices with
    | some fr =>
      let st2 :=
        if fr = "tool_calls" then
          flush_completed_tool_calls { st1 with last_tool_call_finish_reason := some fr }
        else st1
      (st2, { text := text, tool_use := tool_use, is_finished := true, finish_reason := fr,
              usage := chunk.usage, index := chunk.index, raw_chunk := some chunk })
    | none =>
      (st1, { text := text, tool_use := tool_use, is_finished := false, finish_reason := "",
              usage := chunk.usage, index := chunk.index, raw_chunk := some chunk })

/-- A fresh iterator state, as built by `__init__` (lines 633-637). -/
def emptyIterState : IterState :=
  { tool_calls_by_index := [], finished_tool_calls := [],
    last_tool_call_finish_reason := none }

/-- A terminating event: one choice carrying both a complete tool-call
fragment and the `"tool_calls"` finish reason. -/
def c8Delta : Delta :=
  { content := none,
    tool_calls := some [{ index := 0, id := some "c1", type := "function",
                          function := some { name := some "calc",
                                             arguments := some "\x7b\"x\":1\x7d" } }] }

def c8Chunk : Chunk :=
  { index := 0,
    choices := [{ delta := some c8Delta, finish_reason := some "tool_calls" }],
    usage := none }

def c9Frag : ToolCallFragment :=
  { index := 0, id := some "c1", type := "function",
    function := some { name := some "calc", arguments := some "\x7b\x7d" } }

/-- An event whose primary choice's delta carries no tool calls while the
second choice's delta does. -/
def c9Chunk : Chunk :=
  { index := 0,
    choices := [{ delta := some { content := some "", tool_calls := none },
                  finish_reason := none },
                { delta := some { content := none, tool_calls := some [c9Frag] },
                  finish_reason := none }],
    usage := none }

/-! ## Formalizations of the claims under test

Each `claimCN` states the corresponding claim of the specification exactly
as written; the theorems below settle them. -/

/-- Claim C2 as stated: a fragment carrying both a non-empty name and
non-empty arguments replaces the accumulator entry for its index wholesale,
so the entry's arguments afterwards equal exactly the fragment's arguments. -/
def claimC2 : Prop :=
  ∀ (acc : Accumulator) (f : ToolCallFragment) (fn : FunctionFragment) (nm ar : String),
    f.function = some fn → fn.name = some nm → nm ≠ "" → fn.arguments = some ar → ar ≠ "" →
    ∀ e', alookup (processOneFragment acc f).1 f.index = some e' → e'.arguments = ar

/-- Claim C3 as stated: across any sequence of processed fragments, once an
entry's name is non-empty no later fragment changes it, and its arguments
only grow by appending. -/
def claimC3 : Prop :=
  ∀ (acc : Accumulator) (frags : List ToolCallFragment) (idx : Nat) (e e' : ToolCallEntry),
    alookup acc idx = some e →
    alookup (processToolCalls acc frags).1 idx = some e' →
    (e.name ≠ "" → e'.name = e.name) ∧ ∃ t, e'.arguments = e.arguments ++ t

def isAbort (r : PollResult) : Prop :=
  r = PollResult.abortHttp ∨ r = PollResult.abortJson ∨ r = PollResult.abortOther

/-- A polling response that makes the loop poll again: a successful-status
response whose decoded body carries no access token. -/
def isContinue (r : PollResponse) : Prop :=
  ∃ body, r = PollResponse.ok body ∧ body.access_token = none

/-- Claim C5 as stated: at most 12 attempts at a fixed 5-second interval;
a body signalling `authorization_pending` continues the loop; any other
non-success response (in particular a successful-status body carrying
neither a grant nor `authorization_pending`) aborts immediately with an
error rather than polling again. -/
def claimC5 : Prop :=
  ∀ responses : Nat → PollResponse,
    (poll_for_access_token responses).attemptsMade ≤ 12 ∧
    (∀ d ∈ (poll_for_access_token responses).sleeps, d = 5) ∧
    (∀ body : PollBody, responses 0 = PollResponse.ok body → body.access_token = none →
      body.error ≠ some "authorization_pending" →
      isAbort (poll_for_access_token responses).result ∧
      (poll_for_access_token responses).attemptsMade = 1)

/-- A transport oracle refuting claim C5: the first poll gets a
successful-status response whose body signals `access_denied` (no token, not
`authorization_pending`), the second gets a grant. -/
def c5Responses : Nat → PollResponse := fun k =>
  if k = 0 then PollResponse.ok { access_token := none, error := some "access_denied" }
  else PollResponse.ok { access_token := some "tok", error := none }

/-- Claim C6 as stated: the `tools` entry of the shaped request is the
single placeholder exactly when the caller supplied no tool definitions and
the message list marks prior tool usage, and is otherwise the caller's own
`tools` value (no placeholder added, never more than one). -/
def claimC6 : Prop :=
  ∀ (optional_params : Dict) (messages : List Dict),
    dlookup (ensure_tools optional_params messages) "tools" =
      some (if messages.any message_marks_tool_use &&
               !pyTruthy ((dlookup optional_params "tools").getD (PyVal.list []))
            then PyVal.list [noop_tool]
            else (dlookup optional_params "tools").getD (PyVal.list []))

/-- Claim C7 as stated: the repair returns the input unchanged when it
already parses, `"\x7b\x7d"` on empty or whitespace input, the input wrapped in
braces when that wrapping makes it parse, and `"\x7b\x7d"` otherwise; its output
always parses. -/
def claimC7 : Prop :=
  ∀ s : String,
    (jsonOk s = true → fix_json_arguments s = s) ∧
    (pythonStrip s = "" → fix_json_arguments s = "\x7b\x7d") ∧
    (jsonOk s = false → pythonStrip s ≠ "" → jsonOk ("\x7b" ++ s ++ "\x7d") = true →
      fix_json_arguments s = "\x7b" ++ s ++ "\x7d") ∧
    (jsonOk s = false → pythonStrip s ≠ "" → jsonOk ("\x7b" ++ s ++ "\x7d") = false →
      fix_json_arguments s = "\x7b\x7d") ∧
    jsonOk (fix_json_arguments s) = true

/-! ## Lemmas about the association-list dictionary operations -/

theorem alookup_aset_self {α : Type} (l : List (Nat × α)) (k : Nat) (v : α) :
    alookup (aset l k v) k = some v := by
  induction l with
  | nil => simp [aset, alookup]
  | cons p t ih =>
    rcases p with ⟨pk, pv⟩
    by_cases hk : pk = k
    · simp [aset, hk, alookup]
    · simp [aset, hk, alookup, ih]

theorem alookup_aset_ne {α : Type} (l : List (Nat × α)) (k' k : Nat) (v : α)
    (h : k' ≠ k) : alookup (aset l k' v) k = alookup l k := by
  induction l with
  | nil => simp [aset, alookup, h]
  | cons p t ih =>
    rcases p with ⟨pk, pv⟩
    by_cases hk : pk = k'
    · subst hk
      simp [aset, alookup, h, ih]
    · simp [aset, hk, alookup, ih]

theorem alookup_append {α : Type} (l1 l2 : List (Nat × α)) (k : Nat) :
    alookup (l1 ++ l2) k = ((alookup l1 k).orElse fun _ => alookup l2 k) := by
  induction l1 with
  | nil => simp [alookup]
  | cons p t ih =>
    rcases p with ⟨pk, pv⟩
    by_cases hk : pk = k
    · simp [alookup, hk]
    · simp [alookup, hk, ih]

theorem amem_false_alookup {α : Type} (l : List (Nat × α)) (k : Nat)
    (h : amem l k = false) : alookup l k = none := by
  induction l with
  | nil => rfl
  | cons p t ih =>
    rcases p with ⟨pk, pv⟩
    have hk : ¬pk = k := by
      intro hc
      simp [amem, hc] at h
    have ht : amem t k = false := by
      simpa [amem, hk] using h
    simp [alookup, hk, ih ht]

theorem amem_true_alookup {α : Type} (l : List (Nat × α)) (k : Nat)
    (h : amem l k = true) : ∃ v, alookup l k = some v := by
  induction l with
  | nil => simp [amem] at h
  | cons p t ih =>
    rcases p with ⟨pk, pv⟩
    by_cases hk : pk = k
    · exact ⟨pv, by simp [alookup, hk]⟩
    · have ht : amem t k = true := by simpa [amem, hk] using h
      simpa [alookup, hk] using ih ht

/-! ## Credential lifecycle manager: C4, C10 -/

theorem refresh_path_refreshCalled (refresh : RefreshOutcome) (writeOk : Bool) :
    (get_api_key_refresh_path refresh writeOk).refreshCalled = true := by
  cases refresh with
  | failure => rfl
  | success info =>
    by_cases hw : writeOk
    · cases htok : info.token with
      | none => simp [get_api_key_refresh_path, hw, htok]
      | some t => by_cases ht : t = "" <;> simp [get_api_key_refresh_path, hw, htok, ht]
    · simp [get_api_key_refresh_path, hw]

/-- C4: `get_api_key` performs no refresh call and returns the stored token
whenever the persisted file parses and its `expires_at` is in the future; it
performs a refresh call whenever the file is missing/unreadable, malformed,
or its `expires_at` is not in the future. -/
theorem get_api_key_cache_policy (file : ApiKeyFileRead) (now : Int)
    (refresh : RefreshOutcome) (writeOk : Bool) :
    (∀ info, file = ApiKeyFileRead.parsed info → info.expires_at.getD 0 > now →
      get_api_key file now refresh writeOk =
        { result := GetApiKeyResult.returned info.token, refreshCalled := false }) ∧
    ((file = ApiKeyFileRead.ioError ∨ file = ApiKeyFileRead.malformed ∨
        ∃ info, file = ApiKeyFileRead.parsed info ∧ ¬ info.expires_at.getD 0 > now) →
      (get_api_key file now refresh writeOk).refreshCalled = true) := by
  constructor
  · intro info hf hexp
    subst hf
    simp [get_api_key, hexp]
  · intro h
    rcases h with h | h | ⟨info, hf, hexp⟩
    · subst h
      simp [get_api_key, refresh_path_refreshCalled]
    · subst h
      simp [get_api_key, refresh_path_refreshCalled]
    · subst hf
      simp [get_api_key, hexp, refresh_path_refreshCalled]

theorem get_api_key_cache_policy_witness :
    get_api_key (ApiKeyFileRead.parsed { expires_at := some 100, token := some "abc" }) 50
        RefreshOutcome.failure true =
      { result := GetApiKeyResult.returned (some "abc"), refreshCalled := false } ∧
    (get_api_key (ApiKeyFileRead.parsed { expires_at := some 100, token := some "abc" }) 200
        RefreshOutcome.failure true).refreshCalled = true :=
  ⟨(get_api_key_cache_policy _ 50 RefreshOutcome.failure true).1 _ rfl (by decide),
   (get_api_key_cache_policy _ 200 RefreshOutcome.failure true).2
     (Or.inr (Or.inr ⟨_, rfl, by decide⟩))⟩

/-- C10: when the persisted file parses with a future `expires_at` but no
`token` field, `get_api_key` returns `None` — it neither raises
`GetAPIKeyError` nor performs a refresh call. -/
theorem get_api_key_missing_token_returns_none (now e : Int) (refresh : RefreshOutcome)
    (writeOk : Bool) (h : e > now) :
    get_api_key (ApiKeyFileRead.parsed { expires_at := some e, token := none }) now refresh
        writeOk =
      { result := GetApiKeyResult.returned none, refreshCalled := false } := by
  simp [get_api_key, h]

theorem get_api_key_missing_token_returns_none_witness :
    get_api_key (ApiKeyFileRead.parsed { expires_at := some 10, token := none }) 0
        RefreshOutcome.failure true =
      { result := GetApiKeyResult.returned none, refreshCalled := false } :=
  get_api_key_missing_token_returns_none 0 10 RefreshOutcome.failure true (by decide)

/-! ## Request shaper: C1 -/

/-- C1: the spec requires `stream` to be forced to `true` in the shaped
payload, and the code's own debug message claims to enable it, but the merge
`\x7b**copilot_required_params, **optional_params\x7d` gives the caller's
`optional_params` priority: a caller that explicitly passes `stream=False`
gets a payload with `stream` equal to `False`.  (Without an explicit
`stream` key the forced `True` does survive the merge.) -/
theorem transform_request_stream_not_forced :
    (match transform_request "github_copilot/gpt-4.1" [] [("stream", PyVal.bool false)] with
     | Except.ok p => dlookup p "stream"
     | Except.error _ => none) = some (PyVal.bool false) ∧
    (match transform_request "github_copilot/gpt-4.1" [] [] with
     | Except.ok p => dlookup p "stream"
     | Except.error _ => none) = some (PyVal.bool true) :=
  ⟨rfl, rfl⟩

/-! ## Device-code polling: C5 -/

theorem pollGo_attempts_le (responses : Nat → PollResponse) (n : Nat) :
    ∀ (att : Nat) (sl : List Nat), (pollGo responses n att sl).attemptsMade ≤ att + n := by
  induction n with
  | zero => intro att sl; simp [pollGo]
  | succ m ih =>
    intro att sl
    cases hr : responses att with
    | httpError => simp [pollGo, hr]
    | badJson => simp [pollGo, hr]
    | otherException => simp [pollGo, hr]
    | ok body =>
      cases hb : body.access_token with
      | some t => simp [pollGo, hr, hb]
      | none =>
        have h1 := ih (att + 1) (sl ++ [5])
        simp [pollGo, hr, hb, ite_self]
        omega

theorem pollGo_sleeps (responses : Nat → PollResponse) (n : Nat) :
    ∀ (att : Nat) (sl : List Nat), (∀ d ∈ sl, d = 5) →
      ∀ d ∈ (pollGo responses n att sl).sleeps, d = 5 := by
  induction n with
  | zero => intro att sl h; simpa [pollGo] using h
  | succ m ih =>
    intro att sl h
    cases hr : responses att with
    | httpError => simpa [pollGo, hr] using h
    | badJson => simpa [pollGo, hr] using h
    | otherException => simpa [pollGo, hr] using h
    | ok body =>
      cases hb : body.access_token with
      | some t => simpa [pollGo, hr, hb] using h
      | none =>
        have h5 : ∀ d ∈ sl ++ [5], d = 5 := by
          intro d hd
          rcases List.mem_append.mp hd with h1 | h1
          · exact h d h1
          · simpa using h1
        simpa [pollGo, hr, hb, ite_self] using ih (att + 1) (sl ++ [5]) h5

theorem pollGo_skip_continues (responses : Nat → PollResponse) :
    ∀ (k att n : Nat) (sl : List Nat), k ≤ n →
      (∀ j, j < k → isContinue (responses (att + j))) →
      pollGo responses n att sl =
        pollGo responses (n - k) (att + k) (sl ++ List.replicate k 5) := by
  intro k
  induction k with
  | zero => intro att n sl _ _; simp
  | succ m ih =>
    intro att n sl hkn hcont
    obtain ⟨body, hr, hb⟩ := hcont 0 (Nat.succ_pos m)
    have hr' : responses att = PollResponse.ok body := by simpa using hr
    cases n with
    | zero => omega
    | succ n' =>
      have hstep : pollGo responses (n' + 1) att sl = pollGo responses n' (att + 1) (sl ++ [5]) := by
        simp [pollGo, hr', hb, ite_self]
      have hc : ∀ j, j < m → isContinue (responses (att + 1 + j)) := by
        intro j hj
        have he : att + (j + 1) = att + 1 + j := by omega
        have := hcont (j + 1) (by omega)
        rwa [he] at this
      rw [hstep, ih (att + 1) n' (sl ++ [5]) (by omega) hc]
      have e1 : n' - m = n' + 1 - (m + 1) := by omega
      have e2 : att + 1 + m = att + (m + 1) := by omega
      have e3 : (sl ++ [5]) ++ List.replicate m 5 = sl ++ List.replicate (m + 1) 5 := by
        simp [List.replicate_succ]
      rw [e1, e2, e3]

/-- C5 (amended): the poll loop makes at most 12 attempts and every sleep
between attempts is exactly 5 seconds; a non-success HTTP status aborts
immediately with an error; a successful-status body carrying a grant returns
it immediately; but a successful-status body without a grant — whether it
signals `authorization_pending` or any other error such as `access_denied` —
makes the loop sleep and poll again, and only after 12 such responses does
the loop time out. -/
theorem poll_for_access_token_policy (responses : Nat → PollResponse) :
    (poll_for_access_token responses).attemptsMade ≤ 12 ∧
    (∀ d ∈ (poll_for_access_token responses).sleeps, d = 5) ∧
    (∀ k, k < 12 → (∀ j, j < k → isContinue (responses j)) →
      responses k = PollResponse.httpError →
      poll_for_access_token responses =
        { result := PollResult.abortHttp, attemptsMade := k + 1,
          sleeps := List.replicate k 5 }) ∧
    (∀ k body tok, k < 12 → (∀ j, j < k → isContinue (responses j)) →
      responses k = PollResponse.ok body → body.access_token = some tok →
      poll_for_access_token responses =
        { result := PollResult.success tok, attemptsMade := k + 1,
          sleeps := List.replicate k 5 }) ∧
    ((∀ j, j < 12 → isContinue (responses j)) →
      poll_for_access_token responses =
        { result := PollResult.timedOut, attemptsMade := 12,
          sleeps := List.replicate 12 5 }) := by
  refine ⟨?_, ?_, ?_, ?_, ?_⟩
  · simpa using pollGo_attempts_le responses 12 0 []
  · exact pollGo_sleeps responses 12 0 [] (by simp)
  · intro k hk hcont hr
    unfold poll_for_access_token
    rw [pollGo_skip_continues responses k 0 12 [] (by omega) (by simpa using hcont)]
    obtain ⟨m, hm⟩ : ∃ m, 12 - k = m + 1 := ⟨12 - k - 1, by omega⟩
    rw [hm]
    simp [pollGo, hr]
  · intro k body tok hk hcont hr htok
    unfold poll_for_access_token
    rw [pollGo_skip_continues responses k 0 12 [] (by omega) (by simpa using hcont)]
    obtain ⟨m, hm⟩ : ∃ m, 12 - k = m + 1 := ⟨12 - k - 1, by omega⟩
    rw [hm]
    simp [pollGo, hr, htok]
  · intro hcont
    unfold poll_for_access_token
    rw [pollGo_skip_continues responses 12 0 12 [] (by omega) (by simpa using hcont)]
    simp [pollGo]

theorem poll_for_access_token_policy_witness :
    poll_for_access_token (fun _ => PollResponse.httpError) =
      { result := PollResult.abortHttp, attemptsMade := 1, sleeps := [] } := by
  have := (poll_for_access_token_policy (fun _ => PollResponse.httpError)).2.2.1 0 (by decide)
    (fun j hj => absurd hj (by omega)) rfl
  simpa using this

/-- C5 counterexample: after a successful-status response whose body signals
`access_denied` (no grant, not `authorization_pending`), the loop does not
abort — it sleeps and polls again, and here succeeds on the second attempt. -/
theorem poll_abort_claim_false : ¬ claimC5 := by
  intro h
  obtain ⟨-, -, h3⟩ := h c5Responses
  obtain ⟨-, h5⟩ :=
    h3 { access_token := none, error := some "access_denied" } rfl rfl (by decide)
  have h2 : (poll_for_access_token c5Responses).attemptsMade = 2 := rfl
  omega

/-! ## Request shaper placeholder tool: C6 -/

theorem dlookup_dset_self {α : Type} (l : List (String × α)) (k : String) (v : α) :
    dlookup (dset l k v) k = some v := by
  induction l with
  | nil => simp [dset, dlookup]
  | cons p t ih =>
    rcases p with ⟨pk, pv⟩
    by_cases hk : pk = k
    · simp [dset, hk, dlookup]
    · simp [dset, hk, dlookup, ih]

/-- C6 counterexample: a caller that explicitly passes `tools: []` gets the
placeholder even though the (empty) message list contains no prior tool-call
or tool-result message, because of the second disjunct
`("tools" in optional_params and not tools)` at line 177. -/
theorem ensure_tools_claim_false : ¬ claimC6 := by
  intro h
  have h1 := h [("tools", PyVal.list [])] []
  have h2 : (PyVal.list [noop_tool]) = PyVal.list [] := Option.some.inj h1
  have h3 : ([noop_tool] : List PyVal) = [] := by injection h2
  exact List.cons_ne_nil _ _ h3

/-- C6 (amended): the `tools` entry of the shaped request is the single
placeholder exactly when the caller's `tools` value is falsy (absent, empty
or `None`) and either the message list marks prior tool usage or the caller
explicitly passed a `tools` key; otherwise it is the caller's own `tools`
value, so real tools are never replaced and at most one placeholder is ever
added. -/
theorem ensure_tools_placeholder_policy (optional_params : Dict) (messages : List Dict) :
    dlookup (ensure_tools optional_params messages) "tools" =
      some (if (messages.any message_marks_tool_use || dmem optional_params "tools")
               && !pyTruthy ((dlookup optional_params "tools").getD (PyVal.list []))
            then PyVal.list [noop_tool]
            else (dlookup optional_params "tools").getD (PyVal.list [])) := by
  simp only [ensure_tools]
  rw [dlookup_dset_self]
  congr 1
  cases messages.any message_marks_tool_use <;>
    cases dmem optional_params "tools" <;>
      cases pyTruthy ((dlookup optional_params "tools").getD (PyVal.list [])) <;> rfl

/-! ## Tool-call accumulator: C2, C3 -/

theorem alookup_initAcc_self (acc : Accumulator) (f : ToolCallFragment) :
    alookup (initAcc acc f) f.index =
      some ((alookup acc f.index).getD (freshEntry f.type)) := by
  by_cases h : amem acc f.index = true
  · rw [initAcc, if_pos h]
    obtain ⟨v, hv⟩ := amem_true_alookup acc f.index h
    simp [hv]
  · rw [initAcc, if_neg h, alookup_append,
        amem_false_alookup acc f.index (by simpa using h)]
    simp [alookup]

theorem alookup_initAcc_ne (acc : Accumulator) (f : ToolCallFragment) (j : Nat)
    (h : j ≠ f.index) : alookup (initAcc acc f) j = alookup acc j := by
  by_cases hm : amem acc f.index = true
  · rw [initAcc, if_pos hm]
  · rw [initAcc, if_neg hm, alookup_append]
    have h1 : alookup [(f.index, freshEntry f.type)] j = none := by
      simp only [alookup]
      rw [if_neg (Ne.symm h)]
    rw [h1]
    cases alookup acc j <;> rfl

theorem alookup_processOne_self (acc : Accumulator) (f : ToolCallFragment) :
    alookup (processOneFragment acc f).1 f.index =
      some (updateEntry ((alookup acc f.index).getD (freshEntry f.type)) f) := by
  simp only [processOneFragment]
  rw [alookup_aset_self, alookup_initAcc_self]
  simp

theorem alookup_processOne_ne (acc : Accumulator) (f : ToolCallFragment) (j : Nat)
    (h : j ≠ f.index) :
    alookup (processOneFragment acc f).1 j = alookup acc j := by
  simp only [processOneFragment]
  rw [alookup_aset_ne _ _ _ _ (Ne.symm h), alookup_initAcc_ne acc f j h]

/-- C2 counterexample: a fragment carrying both a name and arguments is
still accumulated by appending — after a partial fragment left `"ab"` for
index 0, a "complete" fragment with arguments `"\x7b\x7d"` leaves `"ab\x7b\x7d"`,
not `"\x7b\x7d"`. -/
theorem complete_fragment_overwrite_claim_false : ¬ claimC2 := by
  intro h
  have h1 := h [(0, { id := "", name := "", arguments := "ab", type := "function" })]
    { index := 0, id := none, type := "function",
      function := some { name := some "f", arguments := some "\x7b\x7d" } }
    { name := some "f", arguments := some "\x7b\x7d" } "f" "\x7b\x7d"
    rfl rfl (by decide) rfl (by decide)
  have h2 := h1 { id := "", name := "f", arguments := "ab\x7b\x7d", type := "function" } rfl
  exact absurd h2 (by decide)

/-- C2 (amended): a fragment carrying both a non-empty name and non-empty
arguments updates the accumulator entry in place like any incremental
fragment: the name (and id, when present) are overwritten, but the
fragment's arguments are appended to whatever partial argument text the
entry already held. -/
theorem complete_fragment_appends (acc : Accumulator) (f : ToolCallFragment)
    (fn : FunctionFragment) (nm ar : String)
    (hf : f.function = some fn) (hn : fn.name = some nm) (hn2 : nm ≠ "")
    (ha : fn.arguments = some ar) (ha2 : ar ≠ "") :
    alookup (processOneFragment acc f).1 f.index =
      some { id := f.id.getD ((alookup acc f.index).getD (freshEntry f.type)).id,
             name := nm,
             arguments := ((alookup acc f.index).getD (freshEntry f.type)).arguments ++ ar,
             type := ((alookup acc f.index).getD (freshEntry f.type)).type } := by
  rw [alookup_processOne_self]
  cases hid : f.id with
  | none => simp [updateEntry, hid, hf, hn, ha, hn2, ha2]
  | some i => simp [updateEntry, hid, hf, hn, ha, hn2, ha2]

theorem complete_fragment_appends_witness :
    alookup (processOneFragment []
      { index := 0, id := some "id1", type := "function",
        function := some { name := some "calc", arguments := some "\x7b\"x\":1\x7d" } }).1 0 =
      some { id := "id1", name := "calc", arguments := "\x7b\"x\":1\x7d", type := "function" } :=
  complete_fragment_appends []
    { index := 0, id := some "id1", type := "function",
      function := some { name := some "calc", arguments := some "\x7b\"x\":1\x7d" } }
    { name := some "calc", arguments := some "\x7b\"x\":1\x7d" } "calc" "\x7b\"x\":1\x7d"
    rfl rfl (by decide) rfl (by decide)

/-- C3 counterexample: a later fragment carrying a different non-empty name
overwrites the name already stored for its index (line 779 assigns
unconditionally whenever the incoming name is truthy). -/
theorem name_never_overwritten_claim_false : ¬ claimC3 := by
  intro h
  have h1 := h [(0, { id := "", name := "f", arguments := "", type := "function" })]
    [{ index := 0, id := none, type := "function",
       function := some { name := some "g", arguments := none } }]
    0 { id := "", name := "f", arguments := "", type := "function" }
    { id := "", name := "g", arguments := "", type := "function" } rfl rfl
  have h2 := h1.1 (by decide)
  exact absurd h2 (by decide)

theorem updateEntry_name_ne (e : ToolCallEntry) (f : ToolCallFragment)
    (h : e.name ≠ "") : (updateEntry e f).name ≠ "" := by
  rcases hfn : f.function with _ | ⟨fname, fargs⟩
  · cases hid : f.id <;> simp [updateEntry, hid, hfn] <;> exact h
  · cases hid : f.id <;>
      rcases fname with _ | nm <;>
        rcases fargs with _ | ar <;>
          simp only [updateEntry, hid, hfn] <;>
            (try split_ifs) <;> simp_all

theorem updateEntry_args_append (e : ToolCallEntry) (f : ToolCallFragment) :
    ∃ t, (updateEntry e f).arguments = e.arguments ++ t := by
  rcases hfn : f.function with _ | ⟨fname, fargs⟩
  · refine ⟨"", ?_⟩
    cases hid : f.id <;> simp [updateEntry, hid, hfn, String.append_empty]
  · cases hid : f.id <;>
      rcases fname with _ | nm <;>
        rcases fargs with _ | ar <;>
          simp only [updateEntry, hid, hfn] <;>
            (try split_ifs) <;>
              first
                | exact ⟨ar, rfl⟩
                | exact ⟨"", (String.append_empty _).symm⟩

/-- C3 (amended): across any sequence of processed fragments, an entry never
disappears before a flush, once its name is non-empty it stays non-empty
(though a later fragment carrying a different non-empty name may replace
it), and its arguments only grow by appending. -/
theorem accumulator_entry_invariant (acc : Accumulator) (frags : List ToolCallFragment)
    (idx : Nat) (e : ToolCallEntry) (h : alookup acc idx = some e) :
    ∃ e', alookup (processToolCalls acc frags).1 idx = some e' ∧
      (e.name ≠ "" → e'.name ≠ "") ∧ ∃ t, e'.arguments = e.arguments ++ t := by
  induction frags generalizing acc e with
  | nil =>
    exact ⟨e, by simpa [processToolCalls] using h, fun hn => hn,
           "", (String.append_empty _).symm⟩
  | cons f fs ih =>
    by_cases hidx : idx = f.index
    · subst hidx
      have hself := alookup_processOne_self acc f
      have he0 : (alookup acc f.index).getD (freshEntry f.type) = e := by
        rw [h]
        rfl
      rw [he0] at hself
      obtain ⟨e2, he2, hname2, t2, hargs2⟩ := ih (processOneFragment acc f).1 (updateEntry e f) hself
      obtain ⟨t1, ht1⟩ := updateEntry_args_append e f
      refine ⟨e2, by simpa [processToolCalls] using he2, ?_, t1 ++ t2, ?_⟩
      · intro hn
        exact hname2 (updateEntry_name_ne e f hn)
      · rw [hargs2, ht1, String.append_assoc]
    · have hne := alookup_processOne_ne acc f idx hidx
      obtain ⟨e2, he2, hn2, ht2⟩ := ih (processOneFragment acc f).1 e (by rw [hne]; exact h)
      exact ⟨e2, by simpa [processToolCalls] using he2, hn2, ht2⟩

theorem accumulator_entry_invariant_witness :
    ∃ e', alookup (processToolCalls
        [(0, { id := "", name := "calc", arguments := "\x7b\"x\"", type := "function" })]
        [{ index := 0, id := none, type := "function",
           function := some { name := none, arguments := some ":1\x7d" } }]).1 0 = some e' ∧
      (({ id := "", name := "calc", arguments := "\x7b\"x\"", type := "function" } :
          ToolCallEntry).name ≠ "" → e'.name ≠ "") ∧
      ∃ t, e'.arguments = "\x7b\"x\"" ++ t :=
  accumulator_entry_invariant
    [(0, { id := "", name := "calc", arguments := "\x7b\"x\"", type := "function" })]
    [{ index := 0, id := none, type := "function",
       function := some { name := none, arguments := some ":1\x7d" } }]
    0 { id := "", name := "calc", arguments := "\x7b\"x\"", type := "function" } rfl

/-! ## Flush ordering and second-choice fallback: C8, C9 -/

theorem flush_fields (st : IterState) :
    (flush_completed_tool_calls st).tool_calls_by_index = [] ∧
    (flush_completed_tool_calls st).finished_tool_calls =
      st.finished_tool_calls ++ flushSelect st.tool_calls_by_index := by
  by_cases h : st.tool_calls_by_index.isEmpty
  · have he : st.tool_calls_by_index = [] := List.isEmpty_iff.mp h
    simp [flush_completed_tool_calls, h, he, flushSelect]
  · simp [flush_completed_tool_calls, h]

/-- C8: on an event whose finish reason is `"tool_calls"`, the flush fires
only after the event's own tool-call fragments have been folded into the
accumulator — the flushed set is computed from the post-fold accumulator —
and afterwards the accumulator table is empty. -/
theorem flush_after_fold (st : IterState) (chunk : Chunk)
    (h : firstFinishReason chunk.choices = some "tool_calls") :
    (chunkParser st chunk).1.tool_calls_by_index = [] ∧
    (chunkParser st chunk).1.finished_tool_calls =
      st.finished_tool_calls ++
        flushSelect (processToolCalls st.tool_calls_by_index (effective_tool_calls chunk)).1 := by
  rcases hch : chunk.choices with _ | ⟨c0, rest⟩
  · rw [hch] at h
    simp [firstFinishReason] at h
  · rw [hch] at h
    have hpr : (if !(effective_tool_calls chunk).isEmpty
        then processToolCalls st.tool_calls_by_index (effective_tool_calls chunk)
        else (st.tool_calls_by_index, [])).1 =
        (processToolCalls st.tool_calls_by_index (effective_tool_calls chunk)).1 := by
      by_cases he : (effective_tool_calls chunk).isEmpty
      · rw [List.isEmpty_iff.mp he]
        simp [processToolCalls]
      · simp [he]
    simp only [chunkParser, hch, h, if_true]
    refine ⟨(flush_fields _).1, ?_⟩
    rw [(flush_fields _).2]
    simp only []
    rw [hpr]

theorem flush_after_fold_witness :
    (chunkParser emptyIterState c8Chunk).1.tool_calls_by_index = [] ∧
    (chunkParser emptyIterState c8Chunk).1.finished_tool_calls =
      [] ++ flushSelect (processToolCalls [] (effective_tool_calls c8Chunk)).1 :=
  flush_after_fold emptyIterState c8Chunk (by decide)

theorem updateEntry_name_of_fragment (e : ToolCallEntry) (f : ToolCallFragment)
    (fn : FunctionFragment) (nm : String) (hf : f.function = some fn)
    (hn : fn.name = some nm) (hnm : nm ≠ "") : (updateEntry e f).name = nm := by
  cases hid : f.id <;>
    rcases har : fn.arguments with _ | ar <;>
      simp only [updateEntry, hid, hf, hn, har] <;>
        (try split_ifs) <;> simp_all

theorem processOneFragment_some (acc : Accumulator) (f : ToolCallFragment)
    (fn : FunctionFragment) (nm : String) (hf : f.function = some fn)
    (hn : fn.name = some nm) (hnm : nm ≠ "") :
    ((processOneFragment acc f).2).isSome := by
  have hname :=
    updateEntry_name_of_fragment ((alookup (initAcc acc f) f.index).getD (freshEntry f.type))
      f fn nm hf hn hnm
  simp [processOneFragment, validate_tool_call_structure, hname, hnm]

theorem processToolCalls_snd_ne_nil (frags : List ToolCallFragment)
    (hx : ∃ f ∈ frags, ∃ fn, f.function = some fn ∧ ∃ nm, fn.name = some nm ∧ nm ≠ "") :
    ∀ acc, (processToolCalls acc frags).2 ≠ [] := by
  induction frags with
  | nil => simp at hx
  | cons f fs ih =>
    intro acc
    rcases hx with ⟨g, hg, fn, hfn, nm, hnm, hne⟩
    rcases List.mem_cons.mp hg with heq | hgs
    · subst heq
      have hs := processOneFragment_some acc g fn nm hfn hnm hne
      simp only [processToolCalls]
      intro hc
      rcases List.append_eq_nil.mp hc with ⟨hc1, -⟩
      rw [Option.isSome_iff_exists] at hs
      obtain ⟨a, ha⟩ := hs
      simp [ha] at hc1
    · have := ih ⟨g, hgs, fn, hfn, nm, hnm, hne⟩ (processOneFragment acc f).1
      simp only [processToolCalls]
      intro hc
      rcases List.append_eq_nil.mp hc with ⟨-, hc2⟩
      exact this hc2

/-- C9: when the primary choice's delta carries no tool calls but a second
choice's delta does, the parser processes the second choice's fragments
(the emitted `tool_use` is the first chunk reconstructed from them), and for
a fragment list containing a named fragment the emitted `tool_use` is
non-null. -/
theorem second_choice_tool_calls (st : IterState) (chunk : Chunk) (c0 c1 : Choice)
    (rest : List Choice) (tc : List ToolCallFragment)
    (hch : chunk.choices = c0 :: c1 :: rest)
    (h0 : ((c0.delta.getD emptyDelta).tool_calls).getD [] = [])
    (h1 : ((c1.delta.getD emptyDelta).tool_calls).getD [] = tc)
    (htc : tc ≠ [])
    (hname : ∃ f ∈ tc, ∃ fn, f.function = some fn ∧ ∃ nm, fn.name = some nm ∧ nm ≠ "") :
    (chunkParser st chunk).2.tool_use =
      (processToolCalls st.tool_calls_by_index tc).2.head? ∧
    (chunkParser st chunk).2.tool_use ≠ none := by
  have heff : effective_tool_calls chunk = tc := by
    simp [effective_tool_calls, hch, h0, h1]
  have hne := processToolCalls_snd_ne_nil tc hname st.tool_calls_by_index
  have hhead : (processToolCalls st.tool_calls_by_index tc).2.head? ≠ none := by
    cases hl : (processToolCalls st.tool_calls_by_index tc).2 with
    | nil => exact absurd hl hne
    | cons a l => simp
  have htu : (chunkParser st chunk).2.tool_use =
      (processToolCalls st.tool_calls_by_index tc).2.head? := by
    simp only [chunkParser, hch, heff, htc]
    have hie : tc.isEmpty = false := by
      cases tc
      · exact absurd rfl htc
      · rfl
    rw [hie]
    cases hfin : firstFinishReason (c0 :: c1 :: rest) with
    | none => simp [hfin]
    | some fr => simp [hfin]
  exact ⟨htu, by rw [htu]; exact hhead⟩

theorem second_choice_tool_calls_witness :
    (chunkParser emptyIterState c9Chunk).2.tool_use ≠ none :=
  (second_choice_tool_calls emptyIterState c9Chunk
    { delta := some { content := some "", tool_calls := none }, finish_reason := none }
    { delta := some { content := none, tool_calls := some [c9Frag] }, finish_reason := none }
    [] [c9Frag] rfl rfl rfl (by decide)
    ⟨c9Frag, List.mem_singleton.mpr rfl,
      { name := some "calc", arguments := some "\x7b\x7d" }, rfl, "calc", rfl, by decide⟩).2

/-! ## JSON repair: C7 -/

theorem jsonOk_empty_obj : jsonOk "\x7b\x7d" = true := by decide

theorem parseJ_value_nil (f : Nat) : parseJ f PMode.value [] = none := by
  cases f <;> rfl

theorem parseJ_value_space (c : Char) (cs : List Char) (f : Nat)
    (h : pythonIsSpace c = true) : parseJ f PMode.value (c :: cs) = none := by
  simp only [pythonIsSpace, Bool.or_eq_true, decide_eq_true_eq, or_assoc] at h
  rcases h with h|h|h|h|h|h|h|h|h|h|h|h|h|h|h|h|h|h|h|h|h|h|h|h|h|h|h|h|h <;>
    subst h <;> cases f <;> rfl

theorem parseJ_skipWs_space (f : Nat) :
    ∀ l : List Char, (∀ c ∈ l, pythonIsSpace c = true) →
      parseJ f PMode.value (skipWs l) = none := by
  intro l
  induction l with
  | nil =>
    intro _
    simpa [skipWs] using parseJ_value_nil f
  | cons c cs ih =>
    intro h
    by_cases hw : isJsonWs c = true
    · rw [skipWs, List.dropWhile_cons, if_pos hw]
      exact ih (fun x hx => h x (List.mem_cons_of_mem _ hx))
    · rw [skipWs, List.dropWhile_cons, if_neg hw]
      exact parseJ_value_space c cs f (h c (List.mem_cons_self _ _))

theorem stripList_eq_nil (l : List Char) (h : stripList l = []) :
    ∀ c ∈ l, pythonIsSpace c = true := by
  rw [stripList, List.reverse_eq_nil_iff, List.dropWhile_eq_nil_iff] at h
  intro c hc
  rw [← List.takeWhile_append_dropWhile (p := pythonIsSpace) (l := l)] at hc
  rcases List.mem_append.mp hc with h1 | h1
  · exact List.mem_takeWhile_imp h1
  · exact h c (List.mem_reverse.mpr h1)

theorem jsonOk_strip_ne (s : String) (h : jsonOk s = true) : pythonStrip s ≠ "" := by
  intro hs
  have hl : stripList s.data = [] := congrArg String.data hs
  have hall := stripList_eq_nil s.data hl
  have hp := parseJ_skipWs_space (2 * s.data.length + 2) s.data hall
  unfold jsonOk jsonOkL at h
  rw [hp] at h
  simp at h

theorem jsonOkL_open_open (l : List Char) : jsonOkL ('{' :: '{' :: l) = false := by
  have h : ∀ f, parseJ f PMode.value ('{' :: '{' :: l) = none := by
    intro f
    match f with
    | 0 => rfl
    | 1 => rfl
    | _ + 2 => rfl
  simp only [jsonOkL]
  rw [show skipWs ('{' :: '{' :: l) = '{' :: '{' :: l from rfl, h]

theorem jsonOkL_open_bracket (l : List Char) : jsonOkL ('{' :: '[' :: l) = false := by
  have h : ∀ f, parseJ f PMode.value ('{' :: '[' :: l) = none := by
    intro f
    match f with
    | 0 => rfl
    | 1 => rfl
    | _ + 2 => rfl
  simp only [jsonOkL]
  rw [show skipWs ('{' :: '[' :: l) = '{' :: '[' :: l from rfl, h]

theorem jsonOk_wrap_open (t : String) (h : startsWithChar t '{' = true) :
    jsonOk ("\x7b" ++ t ++ "\x7d") = false := by
  obtain ⟨t1, ht⟩ : ∃ t1, t.data = '{' :: t1 := by
    cases hd : t.data with
    | nil => simp [startsWithChar, hd] at h
    | cons a l =>
      simp only [startsWithChar, hd, decide_eq_true_eq] at h
      exact ⟨l, by rw [h]⟩
  have hdata : ("\x7b" ++ t ++ "\x7d").data = '{' :: '{' :: (t1 ++ ['}']) := by
    simp [String.data_append, ht]
  rw [jsonOk, hdata, jsonOkL_open_open]

theorem jsonOk_wrap_bracket (t : String) (h : startsWithChar t '[' = true) :
    jsonOk ("\x7b" ++ t ++ "\x7d") = false := by
  obtain ⟨t1, ht⟩ : ∃ t1, t.data = '[' :: t1 := by
    cases hd : t.data with
    | nil => simp [startsWithChar, hd] at h
    | cons a l =>
      simp only [startsWithChar, hd, decide_eq_true_eq] at h
      exact ⟨l, by rw [h]⟩
  have hdata : ("\x7b" ++ t ++ "\x7d").data = '{' :: '[' :: (t1 ++ ['}']) := by
    simp [String.data_append, ht]
  rw [jsonOk, hdata, jsonOkL_open_bracket]

/-- C7 counterexample: on the input `"a":1` followed by a space, the repair
strips the input before wrapping, so it returns `\x7b"a":1\x7d` and not the
brace-wrapped original `\x7b"a":1 \x7d` (which also parses). -/
theorem fix_json_claim_false : ¬ claimC7 := by
  intro h
  have h1 := (h "\"a\":1 ").2.2.1 (by decide) (by decide) (by decide)
  have h2 : fix_json_arguments "\"a\":1 " = "\x7b\"a\":1\x7d" := by decide
  rw [h2] at h1
  exact absurd h1 (by decide)

/-- C7 (amended): the repair is idempotent on parseable input and coerces
empty or whitespace-only input to `"\x7b\x7d"`; otherwise it first strips the
input of leading and trailing Python whitespace.  When the stripped input
does not itself start with a brace or bracket it returns the stripped input
wrapped in braces if that parses, else `"\x7b\x7d"`; when the stripped input does
start with a brace or bracket it returns the stripped input if that parses,
else `"\x7b\x7d"`.  The output always parses as JSON. -/
theorem fix_json_arguments_policy (s : String) :
    (jsonOk s = true → fix_json_arguments s = s) ∧
    (pythonStrip s = "" → fix_json_arguments s = "\x7b\x7d") ∧
    (jsonOk s = false → pythonStrip s ≠ "" →
      jsonOk ("\x7b" ++ pythonStrip s ++ "\x7d") = true →
      fix_json_arguments s = "\x7b" ++ pythonStrip s ++ "\x7d") ∧
    (jsonOk s = false → pythonStrip s ≠ "" →
      (startsWithChar (pythonStrip s) '{' = true ∨ startsWithChar (pythonStrip s) '[' = true) →
      fix_json_arguments s = (if jsonOk (pythonStrip s) then pythonStrip s else "\x7b\x7d")) ∧
    (jsonOk s = false → pythonStrip s ≠ "" →
      startsWithChar (pythonStrip s) '{' = false → startsWithChar (pythonStrip s) '[' = false →
      jsonOk ("\x7b" ++ pythonStrip s ++ "\x7d") = false →
      fix_json_arguments s = "\x7b\x7d") ∧
    jsonOk (fix_json_arguments s) = true := by
  refine ⟨?_, ?_, ?_, ?_, ?_, ?_⟩
  · intro hok
    have hne := jsonOk_strip_ne s hok
    have hcond : ¬(s = "" ∨ pythonStrip s = "") := by
      rintro (rfl | hs)
      · exact hne rfl
      · exact hne hs
    simp [fix_json_arguments, hcond, hok]
  · intro hs
    simp only [fix_json_arguments]
    rw [if_pos (Or.inr hs)]
  · intro hok hne hwrap
    have hb : startsWithChar (pythonStrip s) '{' = false := by
      cases hsw : startsWithChar (pythonStrip s) '{'
      · rfl
      · rw [jsonOk_wrap_open _ hsw] at hwrap
        exact absurd hwrap (by simp)
    have hbr : startsWithChar (pythonStrip s) '[' = false := by
      cases hsw : startsWithChar (pythonStrip s) '['
      · rfl
      · rw [jsonOk_wrap_bracket _ hsw] at hwrap
        exact absurd hwrap (by simp)
    have hcond : ¬(s = "" ∨ pythonStrip s = "") := by
      rintro (rfl | hs)
      · exact hne rfl
      · exact hne hs
    simp [fix_json_arguments, hcond, hok, hb, hbr, hwrap]
  · intro hok hne hsw
    have hcond : ¬(s = "" ∨ pythonStrip s = "") := by
      rintro (rfl | hs)
      · exact hne rfl
      · exact hne hs
    rcases hsw with h1 | h1 <;> simp [fix_json_arguments, hcond, hok, h1]
  · intro hok hne hb hbr hwrap
    have hcond : ¬(s = "" ∨ pythonStrip s = "") := by
      rintro (rfl | hs)
      · exact hne rfl
      · exact hne hs
    simp [fix_json_arguments, hcond, hok, hb, hbr, hwrap]
  · simp only [fix_json_arguments]
    split_ifs <;> first | assumption | exact jsonOk_empty_obj

theorem fix_json_arguments_policy_witness :
    fix_json_arguments "\x7b\"k\":1\x7d" = "\x7b\"k\":1\x7d" ∧
    fix_json_arguments "   " = "\x7b\x7d" ∧
    fix_json_arguments "\"a\":1" = "\x7b\"a\":1\x7d" ∧
    jsonOk (fix_json_arguments "xx") = true :=
  ⟨(fix_json_arguments_policy "\x7b\"k\":1\x7d").1 (by decide),
   (fix_json_arguments_policy "   ").2.1 (by decide),
   (fix_json_arguments_policy "\"a\":1").2.2.1 (by decide) (by decide) (by decide),
   (fix_json_arguments_policy "xx").2.2.2.2.2⟩

end LitellmGithubCopilot
